import Mathlib

/-!
# Verification of the CSV splitter (`src/src-tauri/src/lib.rs`)

Shallow embedding of the row-bounded CSV partitioning program and proofs
about it.  The program splits a CSV source into shards of at most
`rows_per_file` data rows, with two execution strategies:

* `split_csv_internal` — the sequential streaming splitter;
* `split_csv_multithread` — the memory-mapped, chunked parallel splitter;

plus the `split_csv` command wrapper and the cell-truncation step of the
spreadsheet converter (`convert_csv_to_excel_minimal`).

The source file is modelled at the record/byte-offset level: a `CsvFile`
records, for every physical line of the input, the parsed record and the
byte length of the line's content.  All byte positions used by the parallel
strategy (newline offsets, chunk boundaries, slice ranges) are derived from
these lengths exactly as the program derives them from the raw bytes, so the
boundary arithmetic of the parallel splitter is reproduced faithfully,
including its off-by-one behaviour.
-/

set_option autoImplicit false

namespace CsvSplit

/-- A parsed CSV record: the list of its fields. -/
abbrev Rec := List String

/-- The modelled source file.

* `recs`: the record on each physical line, in file order (line 0 first).
* `lens`: for each line, the byte length of the line's content, excluding
  the `\n` terminator.  The model assumes the regime the program itself
  assumes when it indexes newline bytes: one record per line, no embedded
  line terminators, every line nonempty.
* `terminated`: whether the final line ends with a `\n` byte.
* `badLine`: index of a line whose bytes are not valid UTF-8, if any.
  A reader that touches this line fails (`csv` validates UTF-8 when reading
  into a `StringRecord`), and `str::from_utf8` fails on any byte slice that
  contains part of this line. -/
structure CsvFile where
  recs : List Rec
  lens : List Nat
  terminated : Bool
  badLine : Option Nat
deriving DecidableEq

/-- Well-formedness of the file model: lengths line up, every line holds at
least one content byte, and a bad line, when present, is a real line. -/
def CsvFile.wf (f : CsvFile) : Prop :=
  f.recs.length = f.lens.length ∧ (∀ l ∈ f.lens, 1 ≤ l) ∧
    (∀ b, f.badLine = some b → b < f.recs.length)

instance (f : CsvFile) : Decidable f.wf := by
  unfold CsvFile.wf
  infer_instance

/-- Byte offset at which line `i` starts (content of line `k` occupies
`lens k` bytes and is followed by one `\n` byte, except possibly the last
line). -/
def CsvFile.lineStart (f : CsvFile) (i : Nat) : Nat :=
  ((f.lens.take i).map (· + 1)).sum

/-- Total byte size of the file, as `metadata.len()` / `mmap.len()` see it. -/
def CsvFile.size (f : CsvFile) : Nat :=
  (f.lens.map (· + 1)).sum - (if f.terminated then 0 else 1)

/-- Number of `\n` bytes in the file: one per line, except that an
unterminated final line has none. -/
def CsvFile.nBreaks (f : CsvFile) : Nat :=
  if f.terminated then f.recs.length else f.recs.length - 1

/-- The offsets of every `\n` byte, in increasing order: what the loop at
lib.rs:424-429 collects into `line_breaks`.  The `\n` terminating line `i`
sits right after the line's content. -/
def CsvFile.breaks (f : CsvFile) : List Nat :=
  (List.range f.nBreaks).map (fun i => f.lineStart i + f.lens.getD i 0)

/-- The request as the splitters see it (`SplitParams`, lib.rs:21-28).
The two path fields are replaced by the abstract environment `Env`. -/
structure Params where
  rows_per_file : Nat
  has_header : Bool
  convert_to_excel : Bool
deriving DecidableEq

/-- The filesystem facts the program probes.  `outputDirWritable` states that
creating a file inside the output directory succeeds (used both by the
sequential probe with `test_write.tmp` and by every shard-file creation). -/
structure Env where
  inputExists : Bool
  inputExt : String
  file : CsvFile
  outputDirExists : Bool
  outputDirCreatable : Bool
  outputDirWritable : Bool
deriving DecidableEq

/-- The response value exposed to the command layer (lib.rs:14-19). -/
structure SplitResult where
  success : Bool
  file_count : Nat
  error : Option String
deriving DecidableEq

/-- Synthesized header `column_1 .. column_k` (lib.rs:153-157, 466-470). -/
def defaultHeaders (k : Nat) : Rec :=
  (List.range k).map (fun i => "column_" ++ toString (i + 1))

/-- Index of the first data line: 1 when a header is declared, else 0. -/
def dataStartIdx (p : Params) : Nat := if p.has_header then 1 else 0

/-- The data records of the source, in order. -/
def dataRecs (p : Params) (f : CsvFile) : List Rec :=
  f.recs.drop (dataStartIdx p)

/-- The number of true data rows of the source. -/
def dataRowCount (p : Params) (f : CsvFile) : Nat := (dataRecs p f).length

/-- Ceiling division, as the program computes it:
`(a + b - 1) / b` (lib.rs:445). -/
def ceilDiv (a b : Nat) : Nat := (a + b - 1) / b

/-! ## Sequential splitter (`split_csv_internal`, lib.rs:90-239) -/

/-- The stream of records the sequential read loop actually obtains.
The `csv` reader hands records back one by one; reading the record on
`badLine` fails, and since the loop is `while let Ok(..) = read_record(..)`
(lib.rs:172) the stream simply ends there. -/
def seqStream (p : Params) (f : CsvFile) : List Rec :=
  let s := f.recs.drop (dataStartIdx p)
  match f.badLine with
  | none => s
  | some b => s.take (b - dataStartIdx p)

/-- Append a record to the currently open (last) shard, as
`writer.write_record(&record)` does (lib.rs:207-210). -/
def appendToLast : List (List Rec) → Rec → List (List Rec)
  | [], _ => []
  | [s], x => [s ++ [x]]
  | s :: rest, x => s :: appendToLast rest x

/-- The sequential write loop (lib.rs:172-218).  State: the remaining input
records, `current_row_count`, and the shards created so far (each shard is
the full sequence of rows written to its file, header first).  A new shard
is opened, starting with the header row, whenever `current_row_count` is 0;
the counter resets after `rows_per_file` data rows. -/
def seqLoop (r : Nat) (hdr : Rec) : List Rec → Nat → List (List Rec) → List (List Rec)
  | [], _, shards => shards
  | rec :: rest, crc, shards =>
    let shards1 := if crc = 0 then shards ++ [[hdr]] else shards
    let shards2 := appendToLast shards1 rec
    let crc1 := crc + 1
    let crc2 := if r ≤ crc1 then 0 else crc1
    seqLoop r hdr rest crc2 shards2

/-- The sequential splitter `split_csv_internal` (lib.rs:90-239).
Returns the result (`Ok(total_files)` or the error) together with the list
of shard files it created, in creation order; every error branch that fires
before the write loop has created nothing.  The optional Excel conversion
pass only re-encodes the finished shards and is not modelled here. -/
def split_csv_internal (p : Params) (env : Env) :
    Except String Nat × List (List Rec) :=
  if env.inputExists = false then (.error "输入文件不存在", [])
  else if env.inputExt ≠ "csv" then (.error "请选择有效的CSV文件", [])
  else if env.file.size = 0 then (.error "CSV文件为空", [])
  else if env.outputDirExists = false ∧ env.outputDirCreatable = false then
    (.error "无法创建输出目录", [])
  else if env.outputDirWritable = false then (.error "输出目录没有写入权限", [])
  else if p.rows_per_file = 0 then (.error "每个文件的行数必须大于0", [])
  else if env.file.badLine = some 0 then
    (.error (if p.has_header then "读取CSV标题行失败" else "读取CSV列数失败"), [])
  else if p.has_header = false ∧ (env.file.recs.headD []).length = 0 then
    (.error "CSV文件没有有效的列数据", [])
  else
    let headers :=
      if p.has_header then env.file.recs.headD []
      else defaultHeaders (env.file.recs.headD []).length
    let stream := seqStream p env.file
    let shards := seqLoop p.rows_per_file headers stream 0 []
    if stream.length = 0 then (.error "CSV文件没有数据行", [])
    else if shards.length = 0 then (.error "没有生成任何文件", shards)
    else (.ok shards.length, shards)

/-! ## Reference chunking function

`chunksOf r l` partitions `l` into consecutive groups of `r`, the last
group possibly smaller.  It is proved equal to what `seqLoop` builds; the
sequential theorems go through it. -/

def chunksOf {α : Type} (r : Nat) (l : List α) : List (List α) :=
  match l with
  | [] => []
  | x :: xs =>
    if h : r = 0 then [] else
      have : ((x :: xs).drop r).length < (x :: xs).length := by
        rw [List.length_drop]
        exact Nat.sub_lt (Nat.succ_pos _) (Nat.pos_of_ne_zero h)
      (x :: xs).take r :: chunksOf r ((x :: xs).drop r)
termination_by l.length

/-! ## Parallel splitter (`split_csv_multithread`, lib.rs:375-620) -/

/-- `total_lines` (lib.rs:431-435): the number of newline bytes, plus one if
the file does not end in a newline — except that a nonempty file with no
newline at all yields 0, because the adjustment is guarded by
`!line_breaks.is_empty()`. -/
def totalLinesOf (f : CsvFile) : Nat :=
  let lb := f.breaks
  lb.length + (if lb ≠ [] ∧ lb.getLast? ≠ some (f.size - 1) then 1 else 0)

/-- `data_lines` (lib.rs:438). -/
def dataLinesOf (p : Params) (f : CsvFile) : Nat :=
  if p.has_header then totalLinesOf f - 1 else totalLinesOf f

/-- `file_count` (lib.rs:445): the shard count the strategy itself computes. -/
def fileCountOf (p : Params) (f : CsvFile) : Nat :=
  max (ceilDiv (dataLinesOf p f) p.rows_per_file) 1

/-- `rows_per_chunk` (lib.rs:446). -/
def rowsPerChunkOf (p : Params) (f : CsvFile) : Nat :=
  ceilDiv (dataLinesOf p f) (fileCountOf p f)

/-- `data_start_pos` (lib.rs:482-486): byte offset where chunking begins. -/
def dataStartPos (p : Params) (f : CsvFile) : Nat :=
  if p.has_header ∧ f.breaks ≠ [] then f.breaks.headD 0 + 1 else 0

/-- `start_line_idx` (lib.rs:491). -/
def startLineIdxOf (p : Params) (f : CsvFile) : Nat :=
  if p.has_header ∧ f.breaks ≠ [] then 1 else 0

/-- The boundary-walking loop `for chunk_idx in 1..file_count`
(lib.rs:492-500).  `fuel` is the number of iterations left and `i` the
current `chunk_idx`; hitting a target line beyond `line_breaks` pushes
`file_size` and breaks. -/
def boundLoop (lb : List Nat) (fs s q : Nat) : Nat → Nat → List Nat
  | 0, _ => []
  | fuel + 1, i =>
    let t := s + i * q
    if t < lb.length then (lb.getD t 0 + 1) :: boundLoop lb fs s q fuel (i + 1)
    else [fs]

/-- `chunk_boundaries` as finally used (lib.rs:479-504): the start position,
the walked boundaries, and a final `file_size` appended whenever the list is
still no longer than `file_count`. -/
def boundariesOf (p : Params) (f : CsvFile) : List Nat :=
  let b0 := dataStartPos p f ::
    boundLoop f.breaks f.size (startLineIdxOf p f) (rowsPerChunkOf p f)
      (fileCountOf p f - 1) 1
  if b0.length ≤ fileCountOf p f then b0 ++ [f.size] else b0

/-- The spawn loop `for file_index in 1..=file_count` (lib.rs:513-526):
collects, in index order, the `(file_index, start_pos, end_pos)` of every
chunk actually handed to a worker.  It breaks when `file_index` reaches the
boundary count and skips empty ranges. -/
def spawnLoop (bounds : List Nat) (fs : Nat) : Nat → Nat → List (Nat × Nat × Nat)
  | 0, _ => []
  | fuel + 1, fi =>
    if bounds.length ≤ fi then []
    else
      let st := bounds.getD (fi - 1) 0
      let en := if fi < bounds.length then bounds.getD fi 0 else fs
      if en ≤ st then spawnLoop bounds fs fuel (fi + 1)
      else (fi, st, en) :: spawnLoop bounds fs fuel (fi + 1)

/-- All chunks dispatched to workers. -/
def spawnedChunks (p : Params) (f : CsvFile) : List (Nat × Nat × Nat) :=
  spawnLoop (boundariesOf p f) f.size (fileCountOf p f) 1

/-- The records the `csv` reader yields from the byte slice `[st, en)`:
every line whose start offset lies in the range.  All ranges the program
slices are line-aligned (each bound is a line start or the end of file), so
a line either lies in the slice entirely or not at all. -/
def sliceRecs (f : CsvFile) (st en : Nat) : List Rec :=
  (List.range f.recs.length).filterMap fun i =>
    if st ≤ f.lineStart i ∧ f.lineStart i < en then some (f.recs.getD i [])
    else none

/-- Whether the byte slice `[st, en)` contains bytes of the invalid line, in
which case `str::from_utf8` on the slice fails (lib.rs:566-567). -/
def badInSlice (f : CsvFile) (st en : Nat) : Bool :=
  match f.badLine with
  | none => false
  | some b =>
    decide (f.lineStart b < en ∧ st < f.lineStart b + f.lens.getD b 0)

/-- The header-row computation of the parallel strategy (lib.rs:448-472):
one read of the first record (for the column count), then either the parsed
header row or synthesized column names.  Reading fails when the bytes it
touches are invalid (line 0 always; line 1 as well when a header is
declared, because `read_record` then returns the first data record). -/
def readHeadersPar (p : Params) (f : CsvFile) : Except String Rec :=
  if f.badLine = some 0 then .error "invalid utf-8"
  else if p.has_header = true ∧ f.badLine = some 1 then .error "invalid utf-8"
  else if p.has_header then .ok (f.recs.headD [])
  else .ok (defaultHeaders (f.recs.headD []).length)

/-- One worker (the closure at lib.rs:539-590).  Returns the result it sends
over the channel and the shard file it created, if any: creating the shard
file fails when the directory is unwritable; otherwise the header row is
written, the chunk is decoded (`str::from_utf8`), the header line is skipped
when the chunk starts at byte 0, and up to `target_rows` records are copied. -/
def workerRun (p : Params) (f : CsvFile) (writable : Bool) (headers : Rec)
    (fileCount rowsPerChunk dataLines : Nat) (fi st en : Nat) :
    Except String Unit × Option (List Rec) :=
  if writable = false then (.error "无法创建输出文件", none)
  else
    let en' := min en f.size
    if badInSlice f st en' then (.error "invalid utf-8", some [headers])
    else
      let skip := if p.has_header ∧ st = 0 then 1 else 0
      let target :=
        if fi = fileCount then rowsPerChunk + (dataLines % fileCount - 1)
        else rowsPerChunk
      let rows := ((sliceRecs f st en').drop skip).take target
      (.ok (), some (headers :: rows))

/-- The result-collection loop and the join pass (lib.rs:600-612).
Input: the `(file_index, result)` messages in the order the coordinator
receives them.  Output: the overall result, the number of messages actually
received before returning, and whether the join loop was reached.  A failure
message makes the coordinator return at once. -/
def drainGo : List (Nat × Except String Unit) → Nat → Except String Nat × Nat × Bool
  | [], completed => (.ok completed, 0, true)
  | (_, .ok _) :: rest, completed =>
    let r := drainGo rest (completed + 1)
    (r.1, r.2.1 + 1, r.2.2)
  | (fi, .error e) :: _, _ =>
    (.error ("处理文件 " ++ toString fi ++ " 失败: " ++ e), 1, false)

/-- Coordinator behaviour on a sequence of worker messages. -/
def drainJoin (msgs : List (Nat × Except String Unit)) :
    Except String Nat × Nat × Bool :=
  drainGo msgs 0

/-- The parallel splitter `split_csv_multithread` (lib.rs:375-620).
Returns the overall result together with every shard file the spawned
workers created (in chunk-index order; chunk-to-shard mapping is
deterministic).  Worker messages are drained in the same order here — which
message order occurs does not affect any property proved below, and `drainJoin`
is also analysed on arbitrary message orders. -/
def split_csv_multithread (p : Params) (env : Env) :
    Except String Nat × List (List Rec) :=
  if env.inputExists = false then (.error "输入文件不存在", [])
  else if env.outputDirExists = false ∧ env.outputDirCreatable = false then
    (.error "无法创建输出目录", [])
  else if p.rows_per_file = 0 then (.error "每个文件的行数必须大于0", [])
  else
    let f := env.file
    if f.size = 0 then (.error "CSV文件为空", [])
    else if dataLinesOf p f = 0 then (.error "CSV文件没有数据行", [])
    else
      match readHeadersPar p f with
      | .error e => (.error e, [])
      | .ok headers =>
        let results := (spawnedChunks p f).map fun c =>
          (c.1, workerRun p f env.outputDirWritable headers (fileCountOf p f)
            (rowsPerChunkOf p f) (dataLinesOf p f) c.1 c.2.1 c.2.2)
        let msgs := results.map fun x => (x.1, x.2.1)
        let shards := results.filterMap fun x => x.2.2
        ((drainJoin msgs).1, shards)

/-! ## Command wrapper (`split_csv`, lib.rs:31-87) -/

/-- The row-count prefix scan (lib.rs:43-57) counts newline bytes with an
early exit once more than 500000 are seen; as a predicate this is exactly
"the file holds more than 500000 newline bytes". -/
def estimatesManyLines (f : CsvFile) : Bool := decide (500000 < f.breaks.length)

/-- The `split_csv` command (lib.rs:31-87).  A failure of
`std::fs::metadata` is returned with `return Err(..)` — it leaves as the
error variant instead of a `SplitResult`.  Every strategy failure is folded
into a `SplitResult` with `success = false`. -/
def split_csv (p : Params) (env : Env) : Except String SplitResult :=
  if env.inputExists = false then .error "无法获取文件信息"
  else
    let useMT := 100 * 1024 * 1024 < env.file.size ∨ estimatesManyLines env.file
    let inner :=
      if useMT then (split_csv_multithread p env).1 else (split_csv_internal p env).1
    match inner with
    | .ok c => .ok ⟨true, c, none⟩
    | .error e => .ok ⟨false, 0, some e⟩

/-! ## Spreadsheet converter cell truncation
(`convert_csv_to_excel_minimal`, lib.rs:295-307) -/

/-- Byte length of a cell's text, as `field.len()` sees it. -/
def utf8Len (s : List Char) : Nat := (s.map Char.utf8Size).sum

/-- The byte slice `&field[..k]` as a total function: `some` of the sliced
characters when `k` falls on a character boundary, `none` when the slice
index lands inside a multi-byte character — the case in which the Rust
slice panics. -/
def takeBytes (k : Nat) (s : List Char) : Option (List Char) :=
  match s with
  | [] => if k = 0 then some [] else none
  | c :: cs =>
    if k = 0 then some []
    else if c.utf8Size ≤ k then (takeBytes (k - c.utf8Size) cs).map (c :: ·)
    else none

/-- `truncated_field` (lib.rs:297-301): the cell text, cut to 500 bytes when
longer.  `none` models the byte-slice panic. -/
def truncateField (s : List Char) : Option (List Char) :=
  if 500 < utf8Len s then takeBytes 500 s else some s

/-! ## Validity of a request -/

/-- A valid request in the sense of the specification: the input exists, is
a nonempty `.csv` file whose bytes are well formed, the output directory
exists and is writable, `rows_per_file` is positive, and there is at least
one data row. -/
def ValidReq (p : Params) (env : Env) : Prop :=
  env.inputExists = true ∧ env.inputExt = "csv" ∧ env.outputDirExists = true ∧
    env.outputDirWritable = true ∧ p.rows_per_file ≠ 0 ∧
    env.file.wf ∧ env.file.badLine = none ∧ (env.file.recs.headD []).length ≠ 0 ∧
    dataRowCount p env.file ≠ 0

instance (p : Params) (env : Env) : Decidable (ValidReq p env) := by
  unfold ValidReq
  infer_instance

/-- The header row every shard must open with, per the specification: the
source header row when one is declared, else `column_1 .. column_k` with `k`
the field count of the first record. -/
def expectedHeader (p : Params) (f : CsvFile) : Rec :=
  if p.has_header then f.recs.headD []
  else defaultHeaders (f.recs.headD []).length

/-- The environment whose input file is cut right before line `b`, with the
final kept line terminated and no invalid bytes: how the sequential reader
effectively sees an input whose line `b` it fails to read. -/
def truncEnv (env : Env) (b : Nat) : Env :=
  { env with file := ⟨env.file.recs.take b, env.file.lens.take b, true, none⟩ }

/-! ## Concrete fixtures used to evaluate the model -/

/-- Three one-byte single-field rows, newline-terminated, no header. -/
def fileABC : CsvFile := ⟨[["a"], ["b"], ["c"]], [1, 1, 1], true, none⟩

/-- Six one-byte single-field rows, newline-terminated, no header. -/
def fileSix : CsvFile :=
  ⟨[["a"], ["b"], ["c"], ["d"], ["e"], ["f"]], [1, 1, 1, 1, 1, 1], true, none⟩

/-- Eight one-byte single-field rows, newline-terminated, no header. -/
def fileEight : CsvFile :=
  ⟨[["a"], ["b"], ["c"], ["d"], ["e"], ["f"], ["g"], ["h"]],
    [1, 1, 1, 1, 1, 1, 1, 1], true, none⟩

/-- A header line, one readable data row, then a row whose bytes the reader
fails to read. -/
def fileBadTail : CsvFile := ⟨[["h1"], ["a"], ["bad"]], [2, 1, 3], true, some 2⟩

/-- Three rows without header, the third one unreadable. -/
def fileBadThird : CsvFile := ⟨[["a"], ["b"], ["bad"]], [1, 1, 3], true, some 2⟩

def pOne : Params := ⟨1, false, false⟩
def pTwo : Params := ⟨2, false, false⟩
def pThree : Params := ⟨3, false, false⟩
def pFour : Params := ⟨4, false, false⟩
def pZero : Params := ⟨0, false, false⟩
def pTenH : Params := ⟨10, true, false⟩

def envABC : Env := ⟨true, "csv", fileABC, true, true, true⟩
def envSix : Env := ⟨true, "csv", fileSix, true, true, true⟩
def envEight : Env := ⟨true, "csv", fileEight, true, true, true⟩
def envTxt : Env := ⟨true, "txt", ⟨[["a"], ["b"]], [1, 1], true, none⟩, true, true, true⟩
def envBadTail : Env := ⟨true, "csv", fileBadTail, true, true, true⟩
def envBadThird : Env := ⟨true, "csv", fileBadThird, true, true, true⟩
def envMissing : Env := ⟨false, "csv", fileABC, true, true, true⟩

/-! ## Helper lemmas: the sequential loop builds `chunksOf` groups -/

theorem appendToLast_concat (l : List (List Rec)) (s : List Rec) (x : Rec) :
    appendToLast (l ++ [s]) x = l ++ [s ++ [x]] := by
  induction l with
  | nil => rfl
  | cons a l ih =>
    cases l with
    | nil => rfl
    | cons b l =>
      have h0 : appendToLast ((a :: b :: l) ++ [s]) x =
          a :: appendToLast ((b :: l) ++ [s]) x := rfl
      rw [h0, ih]
      rfl

theorem chunksOf_nil {α : Type} (r : Nat) : chunksOf r ([] : List α) = [] := by
  simp [chunksOf]

theorem chunksOf_cons {α : Type} {r : Nat} (hr : r ≠ 0) (x : α) (xs : List α) :
    chunksOf r (x :: xs) =
      (x :: xs).take r :: chunksOf r ((x :: xs).drop r) := by
  rw [chunksOf]
  simp [hr]

theorem chunksOf_ne_nil {α : Type} {r : Nat} (hr : r ≠ 0) (x : α) (xs : List α) :
    chunksOf r (x :: xs) ≠ [] := by
  rw [chunksOf_cons hr]
  exact List.cons_ne_nil _ _

theorem ceilDiv_zero {r : Nat} (hr : r ≠ 0) : ceilDiv 0 r = 0 := by
  unfold ceilDiv
  exact Nat.div_eq_of_lt (by omega)

theorem ceilDiv_sub {n r : Nat} (hn : 1 ≤ n) (hr : r ≠ 0) :
    ceilDiv n r = ceilDiv (n - r) r + 1 := by
  unfold ceilDiv
  rcases le_or_lt n r with h | h
  · have h0 : n - r = 0 := by omega
    rw [h0]
    have h1 : (n + r - 1) / r = 1 := by
      apply Nat.div_eq_of_lt_le <;> omega
    have h2 : (0 + r - 1) / r = 0 := Nat.div_eq_of_lt (by omega)
    omega
  · have : n + r - 1 = (n - r + r - 1) + r := by omega
    rw [this, Nat.add_div_right _ (Nat.pos_of_ne_zero hr)]

theorem length_chunksOf {α : Type} {r : Nat} (hr : r ≠ 0) :
    ∀ l : List α, (chunksOf r l).length = ceilDiv l.length r := by
  have H : ∀ (N : Nat) (l : List α), l.length ≤ N →
      (chunksOf r l).length = ceilDiv l.length r := by
    intro N
    induction N with
    | zero =>
      intro l hl
      have : l = [] := List.length_eq_zero.mp (Nat.le_zero.mp hl)
      subst this
      rw [chunksOf_nil]
      exact (ceilDiv_zero hr).symm
    | succ N ih =>
      intro l hl
      cases l with
      | nil =>
        rw [chunksOf_nil]
        exact (ceilDiv_zero hr).symm
      | cons x xs =>
        rw [chunksOf_cons hr]
        have hlen : ((x :: xs).drop r).length ≤ N := by
          rw [List.length_drop]
          have := hl
          simp only [List.length_cons] at this ⊢
          omega
        rw [List.length_cons, ih _ hlen, List.length_drop, List.length_cons]
        have h1 : 1 ≤ xs.length + 1 := by omega
        rw [ceilDiv_sub h1 hr]
  exact fun l => H l.length l le_rfl

theorem length_le_of_mem_chunksOf {α : Type} {r : Nat} (hr : r ≠ 0) :
    ∀ (l : List α) (c : List α), c ∈ chunksOf r l → c.length ≤ r := by
  have H : ∀ (N : Nat) (l : List α), l.length ≤ N →
      ∀ c ∈ chunksOf r l, c.length ≤ r := by
    intro N
    induction N with
    | zero =>
      intro l hl c hc
      have : l = [] := List.length_eq_zero.mp (Nat.le_zero.mp hl)
      subst this
      rw [chunksOf_nil] at hc
      cases hc
    | succ N ih =>
      intro l hl c hc
      cases l with
      | nil =>
        rw [chunksOf_nil] at hc
        cases hc
      | cons x xs =>
        rw [chunksOf_cons hr] at hc
        rcases List.mem_cons.mp hc with h | h
        · subst h
          rw [List.length_take]
          exact Nat.min_le_left r (x :: xs).length
        · have hlen : ((x :: xs).drop r).length ≤ N := by
            rw [List.length_drop]
            simp only [List.length_cons] at hl ⊢
            omega
          exact ih _ hlen c h
  exact fun l c hc => H l.length l le_rfl c hc

theorem getLast?_chunksOf {α : Type} {r : Nat} (hr : r ≠ 0) :
    ∀ l : List α, l ≠ [] →
      ∃ c, (chunksOf r l).getLast? = some c ∧
        c.length = l.length - r * ((chunksOf r l).length - 1) := by
  have H : ∀ (N : Nat) (l : List α), l.length ≤ N → l ≠ [] →
      ∃ c, (chunksOf r l).getLast? = some c ∧
        c.length = l.length - r * ((chunksOf r l).length - 1) := by
    intro N
    induction N with
    | zero =>
      intro l hl hne
      exact absurd (List.length_eq_zero.mp (Nat.le_zero.mp hl)) hne
    | succ N ih =>
      intro l hl hne
      cases l with
      | nil => exact absurd rfl hne
      | cons x xs =>
        rw [chunksOf_cons hr]
        by_cases hd : (x :: xs).drop r = []
        · rw [hd, chunksOf_nil]
          refine ⟨(x :: xs).take r, rfl, ?_⟩
          have hle : (x :: xs).length ≤ r := by
            have := List.length_drop r (x :: xs)
            rw [hd] at this
            simp only [List.length_nil] at this
            omega
          simp only [List.length_cons, List.length_nil, List.length_take,
            Nat.sub_self, Nat.mul_zero, Nat.sub_zero]
          simp only [List.length_cons] at hle
          omega
        · have hlen : ((x :: xs).drop r).length ≤ N := by
            rw [List.length_drop]
            simp only [List.length_cons] at hl ⊢
            omega
          obtain ⟨c, hc1, hc2⟩ := ih _ hlen hd
          have hcons : chunksOf r ((x :: xs).drop r) ≠ [] := by
            cases hdrop : (x :: xs).drop r with
            | nil => exact absurd hdrop hd
            | cons y ys => exact chunksOf_ne_nil hr y ys
          cases hch : chunksOf r ((x :: xs).drop r) with
          | nil => exact absurd hch hcons
          | cons z zs =>
            rw [hch] at hc1 hc2
            refine ⟨c, ?_, ?_⟩
            · rw [List.getLast?_cons_cons, hc1]
            · simp only [List.length_drop, List.length_cons, Nat.add_sub_cancel] at hc2 ⊢
              rw [Nat.mul_add, Nat.mul_one]
              omega
  exact fun l hne => H l.length l le_rfl hne

theorem seqLoop_step (r : Nat) (hdr x : Rec) (rest : List Rec) (crc : Nat)
    (shards : List (List Rec)) :
    seqLoop r hdr (x :: rest) crc shards =
      seqLoop r hdr rest (if r ≤ crc + 1 then 0 else crc + 1)
        (appendToLast (if crc = 0 then shards ++ [[hdr]] else shards) x) := rfl

/-- The write loop started with counter 0 appends one header-fronted
`chunksOf` group per shard; proved simultaneously with the statement for a
partially filled open shard (counter strictly between 0 and `r`). -/
theorem seqLoop_go {r : Nat} (hr : r ≠ 0) (hdr : Rec) :
    ∀ recs : List Rec,
      (∀ pre : List (List Rec),
        seqLoop r hdr recs 0 pre = pre ++ (chunksOf r recs).map (hdr :: ·)) ∧
      (∀ (crc : Nat) (pre : List (List Rec)) (cur : List Rec),
        0 < crc → crc < r →
        seqLoop r hdr recs crc (pre ++ [cur]) =
          (pre ++ [cur ++ recs.take (r - crc)]) ++
            (chunksOf r (recs.drop (r - crc))).map (hdr :: ·)) := by
  have H : ∀ (N : Nat) (recs : List Rec), recs.length ≤ N →
      (∀ pre : List (List Rec),
        seqLoop r hdr recs 0 pre = pre ++ (chunksOf r recs).map (hdr :: ·)) ∧
      (∀ (crc : Nat) (pre : List (List Rec)) (cur : List Rec),
        0 < crc → crc < r →
        seqLoop r hdr recs crc (pre ++ [cur]) =
          (pre ++ [cur ++ recs.take (r - crc)]) ++
            (chunksOf r (recs.drop (r - crc))).map (hdr :: ·)) := by
    intro N
    induction N with
    | zero =>
      intro recs hl
      have : recs = [] := List.length_eq_zero.mp (Nat.le_zero.mp hl)
      subst this
      constructor
      · intro pre
        simp [seqLoop, chunksOf_nil]
      · intro crc pre cur _ _
        simp [seqLoop, chunksOf_nil]
    | succ N ihN =>
      intro recs hl
      cases recs with
      | nil =>
        constructor
        · intro pre
          simp [seqLoop, chunksOf_nil]
        · intro crc pre cur _ _
          simp [seqLoop, chunksOf_nil]
      | cons x rest =>
        have hrest : rest.length ≤ N := by
          simp only [List.length_cons] at hl
          omega
        obtain ⟨ihA, ihB⟩ := ihN rest hrest
        constructor
        · intro pre
          rw [seqLoop_step, if_pos rfl, appendToLast_concat pre [hdr] x]
          by_cases h1 : r ≤ 0 + 1
          · have hr1 : r = 1 := by omega
            rw [if_pos h1, ihA]
            have ht : (x :: rest).take r = [x] := by rw [hr1]; rfl
            have hd : (x :: rest).drop r = rest := by rw [hr1]; rfl
            rw [chunksOf_cons hr, ht, hd]
            simp [List.append_assoc]
          · rw [if_neg h1]
            simp only [Nat.zero_add]
            rw [ihB 1 pre ([hdr] ++ [x]) (by omega) (by omega)]
            have h2 : r - 1 + 1 = r := by omega
            have ht : (x :: rest).take r = x :: rest.take (r - 1) := by
              conv_lhs => rw [← h2]
              rw [List.take_succ_cons]
            have hd : (x :: rest).drop r = rest.drop (r - 1) := by
              conv_lhs => rw [← h2]
              rw [List.drop_succ_cons]
            rw [chunksOf_cons hr, ht, hd]
            simp [List.append_assoc]
        · intro crc pre cur hpos hcr
          rw [seqLoop_step, if_neg (by omega : ¬ crc = 0),
            appendToLast_concat pre cur x]
          by_cases h1 : r ≤ crc + 1
          · rw [if_pos h1, ihA]
            have h2 : r - crc = 1 := by omega
            rw [h2]
            rfl
          · rw [if_neg h1]
            rw [ihB (crc + 1) pre (cur ++ [x]) (by omega) (by omega)]
            have h2 : r - crc = (r - (crc + 1)) + 1 := by omega
            rw [h2, List.take_succ_cons, List.drop_succ_cons]
            simp [List.append_assoc]
  exact fun recs => H recs.length recs le_rfl

/-- What the sequential write loop builds from scratch. -/
theorem seqLoop_eq_chunksOf {r : Nat} (hr : r ≠ 0) (hdr : Rec) (recs : List Rec) :
    seqLoop r hdr recs 0 [] = (chunksOf r recs).map (hdr :: ·) :=
  ((seqLoop_go hr hdr recs).1 []).trans (by simp)

theorem ceilDiv_ne_zero {n r : Nat} (hn : n ≠ 0) (hr : r ≠ 0) :
    ceilDiv n r ≠ 0 := by
  rw [ceilDiv_sub (by omega) hr]
  omega

theorem CsvFile.size_pos (f : CsvFile) (hwf : f.wf) (hne : f.recs ≠ []) :
    0 < f.size := by
  obtain ⟨hlen, hge, -⟩ := hwf
  cases hl : f.lens with
  | nil =>
    rw [hl] at hlen
    simp only [List.length_nil] at hlen
    exact absurd (List.length_eq_zero.mp hlen) hne
  | cons a rest =>
    have ha : 1 ≤ a := hge a (by rw [hl]; exact List.mem_cons_self a rest)
    unfold CsvFile.size
    rw [hl]
    simp only [List.map_cons, List.sum_cons]
    split <;> omega

/-- Once every validation passes and the read stream is nonempty, the
sequential splitter succeeds; its shards are the `rows_per_file`-sized
groups of whatever records the read loop obtained, each opened with the
header row. -/
theorem seq_run_eval (p : Params) (env : Env)
    (h1 : env.inputExists = true) (h2 : env.inputExt = "csv")
    (h3 : env.outputDirExists = true) (h4 : env.outputDirWritable = true)
    (h5 : p.rows_per_file ≠ 0) (hb0 : env.file.badLine ≠ some 0)
    (hk : (env.file.recs.headD []).length ≠ 0) (hsz : env.file.size ≠ 0)
    (hst : (seqStream p env.file).length ≠ 0) :
    split_csv_internal p env =
      (.ok (ceilDiv (seqStream p env.file).length p.rows_per_file),
        (chunksOf p.rows_per_file (seqStream p env.file)).map
          (expectedHeader p env.file :: ·)) := by
  have hshards : seqLoop p.rows_per_file (expectedHeader p env.file)
      (seqStream p env.file) 0 [] =
      (chunksOf p.rows_per_file (seqStream p env.file)).map
        (expectedHeader p env.file :: ·) := seqLoop_eq_chunksOf h5 _ _
  have hclen : ((chunksOf p.rows_per_file (seqStream p env.file)).map
      (expectedHeader p env.file :: ·)).length =
      ceilDiv (seqStream p env.file).length p.rows_per_file := by
    rw [List.length_map, length_chunksOf h5]
  simp only [split_csv_internal]
  rw [if_neg (by simp [h1]), if_neg (by simp [h2]), if_neg hsz,
    if_neg (by simp [h3]), if_neg (by simp [h4]), if_neg h5,
    if_neg hb0, if_neg (fun hc => hk hc.2)]
  simp only [show (if p.has_header then env.file.recs.headD []
      else defaultHeaders (env.file.recs.headD []).length) =
      expectedHeader p env.file from rfl]
  rw [hshards, if_neg hst, hclen,
    if_neg (ceilDiv_ne_zero hst h5)]

/-- On a valid request the sequential splitter succeeds and its shards are
exactly the `rows_per_file`-sized groups of the data records, each opened
with the header row. -/
theorem seq_run_valid (p : Params) (env : Env) (h : ValidReq p env) :
    split_csv_internal p env =
      (.ok (ceilDiv (dataRowCount p env.file) p.rows_per_file),
        (chunksOf p.rows_per_file (dataRecs p env.file)).map
          (expectedHeader p env.file :: ·)) := by
  obtain ⟨h1, h2, h3, h4, h5, hwf, hbad, hk, hn⟩ := h
  have hne : env.file.recs ≠ [] := by
    intro hq
    apply hn
    unfold dataRowCount dataRecs
    rw [hq]
    simp
  have hsz : env.file.size ≠ 0 :=
    Nat.pos_iff_ne_zero.mp (CsvFile.size_pos _ hwf hne)
  have hstream : seqStream p env.file = dataRecs p env.file := by
    unfold seqStream
    rw [hbad]
    rfl
  have := seq_run_eval p env h1 h2 h3 h4 h5 (by rw [hbad]; exact fun hq => by cases hq)
    hk hsz (by rw [hstream]; exact hn)
  rw [hstream] at this
  exact this

/-! ## Helper lemmas: the coordinator's drain loop -/

theorem drainGo_allOk :
    ∀ (msgs : List (Nat × Except String Unit)) (c : Nat),
      (∀ m ∈ msgs, m.2 = .ok ()) →
      drainGo msgs c = (.ok (c + msgs.length), msgs.length, true) := by
  intro msgs
  induction msgs with
  | nil =>
    intro c _
    simp [drainGo]
  | cons m rest ih =>
    intro c hall
    obtain ⟨fi, r⟩ := m
    have hm : r = .ok () := hall (fi, r) (List.mem_cons_self _ _)
    subst hm
    have hrest : ∀ m ∈ rest, m.2 = Except.ok () :=
      fun m hm => hall m (List.mem_cons_of_mem _ hm)
    simp only [drainGo, ih (c + 1) hrest, List.length_cons]
    have hc : c + 1 + rest.length = c + (rest.length + 1) := by omega
    rw [hc]

theorem drainGo_firstError :
    ∀ (pre : List (Nat × Except String Unit)) (i : Nat) (e : String)
      (rest : List (Nat × Except String Unit)) (c : Nat),
      (∀ m ∈ pre, m.2 = .ok ()) →
      drainGo (pre ++ (i, .error e) :: rest) c =
        (.error ("处理文件 " ++ toString i ++ " 失败: " ++ e),
          pre.length + 1, false) := by
  intro pre
  induction pre with
  | nil =>
    intro i e rest c _
    rfl
  | cons m pre ih =>
    intro i e rest c hall
    obtain ⟨fi, r⟩ := m
    have hm : r = .ok () := hall (fi, r) (List.mem_cons_self _ _)
    subst hm
    have hpre : ∀ m ∈ pre, m.2 = Except.ok () :=
      fun m hm => hall m (List.mem_cons_of_mem _ hm)
    simp only [List.cons_append, drainGo, List.append_eq]
    rw [ih i e rest (c + 1) hpre]
    simp [List.length_cons]

/-! ## Helper lemmas: workers and the parallel run -/

theorem workerRun_unwritable (p : Params) (f : CsvFile) (hd : Rec)
    (fc q dl fi st en : Nat) :
    workerRun p f false hd fc q dl fi st en = (.error "无法创建输出文件", none) := rfl

theorem workerRun_head (p : Params) (f : CsvFile) (w : Bool) (hd : Rec)
    (fc q dl fi st en : Nat) (s : List Rec)
    (hs : (workerRun p f w hd fc q dl fi st en).2 = some s) :
    s.head? = some hd := by
  simp only [workerRun] at hs
  split_ifs at hs
  all_goals cases hs
  all_goals rfl

/-- The headers the parallel strategy computes, when no line is invalid. -/
theorem readHeadersPar_ok (p : Params) (f : CsvFile) (hbad : f.badLine = none) :
    readHeadersPar p f = .ok (expectedHeader p f) := by
  unfold readHeadersPar expectedHeader
  rw [hbad]
  rw [if_neg (by simp), if_neg (by simp)]
  split <;> rfl

/-- Every shard the parallel splitter leaves behind was written by a worker,
and thus opens with the header row computed by `readHeadersPar`. -/
theorem par_shards_from_workers (p : Params) (env : Env) :
    ∀ s ∈ (split_csv_multithread p env).2,
      ∃ hd, readHeadersPar p env.file = .ok hd ∧ s.head? = some hd := by
  intro s hs
  simp only [split_csv_multithread] at hs
  split at hs
  · exact absurd hs (List.not_mem_nil s)
  split at hs
  · exact absurd hs (List.not_mem_nil s)
  split at hs
  · exact absurd hs (List.not_mem_nil s)
  split at hs
  · exact absurd hs (List.not_mem_nil s)
  split at hs
  · exact absurd hs (List.not_mem_nil s)
  split at hs
  · exact absurd hs (List.not_mem_nil s)
  rename_i hd heq
  rw [List.mem_filterMap] at hs
  obtain ⟨x, hx, hxs⟩ := hs
  rw [List.mem_map] at hx
  obtain ⟨c, -, rfl⟩ := hx
  exact ⟨hd, heq, workerRun_head _ _ _ _ _ _ _ _ _ _ _ hxs⟩

/-! ## Helper lemmas: byte offsets, line breaks, chunk boundaries -/

theorem CsvFile.lineStart_zero (f : CsvFile) : f.lineStart 0 = 0 := rfl

theorem CsvFile.lineStart_succ (f : CsvFile) (i : Nat) (h : i < f.lens.length) :
    f.lineStart (i + 1) = f.lineStart i + (f.lens.getD i 0 + 1) := by
  unfold CsvFile.lineStart
  rw [List.take_succ, List.map_append, List.sum_append, List.getElem?_eq_getElem h]
  have hgd : f.lens.getD i 0 = f.lens[i] := by
    rw [List.getD_eq_getElem?_getD, List.getElem?_eq_getElem h]
    rfl
  rw [hgd]
  simp

theorem CsvFile.lineStart_of_le (f : CsvFile) {i : Nat} (h : f.lens.length ≤ i) :
    f.lineStart i = f.lineStart f.lens.length := by
  unfold CsvFile.lineStart
  rw [List.take_of_length_le h, List.take_length]

theorem CsvFile.lineStart_le_succ (f : CsvFile) (i : Nat) :
    f.lineStart i ≤ f.lineStart (i + 1) := by
  rcases lt_or_le i f.lens.length with h | h
  · rw [f.lineStart_succ i h]
    omega
  · rw [f.lineStart_of_le h, @CsvFile.lineStart_of_le f (i + 1) (by omega)]

theorem CsvFile.lineStart_mono (f : CsvFile) {i j : Nat} (h : i ≤ j) :
    f.lineStart i ≤ f.lineStart j := by
  induction h with
  | refl => exact le_rfl
  | step h2 ih => exact le_trans ih (f.lineStart_le_succ _)

theorem CsvFile.size_eq (f : CsvFile) :
    f.size = f.lineStart f.lens.length - (if f.terminated then 0 else 1) := by
  unfold CsvFile.size CsvFile.lineStart
  rw [List.take_length]

theorem getD_mem_of_lt {α : Type} (l : List α) (i : Nat) (d : α)
    (h : i < l.length) : l.getD i d ∈ l := by
  rw [List.getD_eq_getElem?_getD, List.getElem?_eq_getElem h]
  exact List.getElem_mem h

theorem CsvFile.lineStart_lt_size (f : CsvFile) (hwf : f.wf) {i : Nat}
    (h : i < f.recs.length) : f.lineStart i < f.size := by
  obtain ⟨hlen, hge, -⟩ := hwf
  have hi : i < f.lens.length := by omega
  have hgi : 1 ≤ f.lens.getD i 0 := hge _ (getD_mem_of_lt f.lens i 0 hi)
  have hsucc := f.lineStart_succ i hi
  have hmono := f.lineStart_mono (show i + 1 ≤ f.lens.length by omega)
  have hsz := f.size_eq
  have hadj : (if f.terminated then 0 else 1) ≤ 1 := by
    split <;> omega
  omega

theorem CsvFile.length_breaks (f : CsvFile) : f.breaks.length = f.nBreaks := by
  unfold CsvFile.breaks
  rw [List.length_map, List.length_range]

theorem CsvFile.nBreaks_le (f : CsvFile) : f.nBreaks ≤ f.recs.length := by
  unfold CsvFile.nBreaks
  split <;> omega

theorem headD_eq_getD_zero {α : Type} (l : List α) (d : α) :
    l.headD d = l.getD 0 d := by
  cases l <;> rfl

theorem CsvFile.breaks_getD (f : CsvFile) {i : Nat} (h : i < f.nBreaks) :
    f.breaks.getD i 0 = f.lineStart i + f.lens.getD i 0 := by
  unfold CsvFile.breaks
  rw [List.getD_eq_getElem?_getD, List.getElem?_map, List.getElem?_range h]
  rfl

theorem CsvFile.breaks_headD (f : CsvFile) (h : f.breaks ≠ []) :
    f.breaks.headD 0 = f.lens.getD 0 0 := by
  have h0 : 0 < f.nBreaks := by
    have h1 := f.length_breaks
    have h2 := List.length_pos.mpr h
    omega
  rw [headD_eq_getD_zero, f.breaks_getD h0, f.lineStart_zero, Nat.zero_add]

theorem CsvFile.breaks_getLast_terminated (f : CsvFile)
    (hwf : f.wf) (ht : f.terminated = true) (h : f.breaks ≠ []) :
    f.breaks.getLast? = some (f.size - 1) := by
  obtain ⟨hlen, hge, -⟩ := hwf
  have h0 : 0 < f.nBreaks := by
    have h1 := f.length_breaks
    have h2 := List.length_pos.mpr h
    omega
  have hnb : f.nBreaks = f.recs.length := by
    unfold CsvFile.nBreaks
    rw [ht]
    rfl
  have hL : 0 < f.lens.length := by omega
  rw [List.getLast?_eq_getElem?, f.length_breaks]
  unfold CsvFile.breaks
  rw [List.getElem?_map, List.getElem?_range (by omega : f.nBreaks - 1 < f.nBreaks)]
  have hsucc := f.lineStart_succ (f.lens.length - 1) (by omega)
  have hstep : f.nBreaks - 1 = f.lens.length - 1 := by omega
  have hsz : f.size = f.lineStart f.lens.length := by
    rw [f.size_eq, ht]
    simp
  have hone : f.lens.length - 1 + 1 = f.lens.length := by omega
  rw [hone] at hsucc
  simp only [Option.map_some']
  rw [hstep]
  congr 1
  omega

theorem totalLinesOf_le (f : CsvFile) (hwf : f.wf) :
    totalLinesOf f ≤ f.recs.length := by
  have hlb := f.length_breaks
  have hnb := f.nBreaks_le
  simp only [totalLinesOf]
  by_cases ht : f.terminated = true
  · by_cases hne : f.breaks = []
    · rw [if_neg (by intro hc; exact hc.1 hne)]
      omega
    · have hlast := f.breaks_getLast_terminated hwf ht hne
      rw [if_neg (by intro hc; exact hc.2 hlast)]
      omega
  · have hnb2 : f.nBreaks = f.recs.length - 1 := by
      unfold CsvFile.nBreaks
      rw [if_neg ht]
    split
    · rename_i hcond
      have h1 : 0 < f.breaks.length := List.length_pos.mpr hcond.1
      omega
    · omega

theorem dataRow_zero_cases (p : Params) (f : CsvFile) (hwf : f.wf)
    (h : dataRowCount p f = 0) : f.size = 0 ∨ dataLinesOf p f = 0 := by
  unfold dataRowCount dataRecs at h
  rw [List.length_drop] at h
  by_cases hh : f.recs = []
  · left
    have hlens : f.lens = [] := by
      have h1 := hwf.1
      rw [hh] at h1
      simp only [List.length_nil] at h1
      exact List.length_eq_zero.mp h1.symm
    unfold CsvFile.size
    rw [hlens]
    simp
  · right
    have hpos : 0 < f.recs.length := List.length_pos.mpr hh
    have htot := totalLinesOf_le f hwf
    unfold dataStartIdx at h
    unfold dataLinesOf
    by_cases hhd : p.has_header
    · rw [if_pos hhd] at h ⊢
      omega
    · rw [if_neg hhd] at h
      omega

theorem boundLoop_length_le (lb : List Nat) (fs s q : Nat) :
    ∀ fuel i, (boundLoop lb fs s q fuel i).length ≤ fuel := by
  intro fuel
  induction fuel with
  | zero =>
    intro i
    simp [boundLoop]
  | succ fuel ih =>
    intro i
    simp only [boundLoop]
    split
    · simp only [List.length_cons]
      exact Nat.succ_le_succ (ih (i + 1))
    · simp

theorem fileCountOf_pos (p : Params) (f : CsvFile) : 1 ≤ fileCountOf p f :=
  Nat.le_max_right _ 1

theorem boundariesOf_eq (p : Params) (f : CsvFile) :
    boundariesOf p f =
      (dataStartPos p f ::
        boundLoop f.breaks f.size (startLineIdxOf p f) (rowsPerChunkOf p f)
          (fileCountOf p f - 1) 1) ++ [f.size] := by
  unfold boundariesOf
  rw [if_pos]
  have h1 := boundLoop_length_le f.breaks f.size (startLineIdxOf p f)
    (rowsPerChunkOf p f) (fileCountOf p f - 1) 1
  have h2 := fileCountOf_pos p f
  simp only [List.length_cons]
  omega

/-- When every parallel-path validation has passed, at least one worker is
dispatched: the spawn loop's first iteration always finds a nonempty byte
range. -/
theorem spawnedChunks_ne_nil (p : Params) (f : CsvFile) (hwf : f.wf)
    (hsz : f.size ≠ 0) (hdl : dataLinesOf p f ≠ 0) :
    spawnedChunks p f ≠ [] := by
  have hfc := fileCountOf_pos p f
  have hbounds := boundariesOf_eq p f
  set bl := boundLoop f.breaks f.size (startLineIdxOf p f) (rowsPerChunkOf p f)
    (fileCountOf p f - 1) 1 with hbl
  have hlen2 : 2 ≤ (boundariesOf p f).length := by
    rw [hbounds]
    simp
  have hget0 : (boundariesOf p f).getD 0 0 = dataStartPos p f := by
    rw [hbounds]
    rfl
  have hget1 : (boundariesOf p f).getD 1 0 = bl.headD f.size := by
    rw [hbounds]
    cases bl <;> rfl
  have hds_lt_size : dataStartPos p f < f.size := by
    unfold dataStartPos
    split
    · rename_i hcase
      obtain ⟨hhd, hnb⟩ := hcase
      have hrecs2 : 2 ≤ f.recs.length := by
        have h1 := totalLinesOf_le f hwf
        have h2 : dataLinesOf p f = totalLinesOf f - 1 := by
          unfold dataLinesOf
          rw [if_pos hhd]
        omega
      have hlen0 : 0 < f.lens.length := by
        have h4 := hwf.1
        omega
      have h3 : f.breaks.headD 0 + 1 = f.lineStart 1 := by
        rw [f.breaks_headD hnb, f.lineStart_succ 0 hlen0, f.lineStart_zero]
        omega
      rw [h3]
      exact f.lineStart_lt_size hwf (by omega : 1 < f.recs.length)
    · omega
  have hds_le : ∀ t : Nat, 1 ≤ t → t < f.nBreaks →
      dataStartPos p f ≤ f.breaks.getD t 0 := by
    intro t ht1 ht2
    unfold dataStartPos
    split
    · rename_i hcase
      obtain ⟨hhd, hnb⟩ := hcase
      have hlen0 : 0 < f.lens.length := by
        have h1 := f.length_breaks
        have h2 := List.length_pos.mpr hnb
        have h3 := f.nBreaks_le
        have h4 := hwf.1
        omega
      have h3 : f.breaks.headD 0 + 1 = f.lineStart 1 := by
        rw [f.breaks_headD hnb, f.lineStart_succ 0 hlen0, f.lineStart_zero]
        omega
      rw [h3, f.breaks_getD ht2]
      have h5 := f.lineStart_mono ht1
      omega
    · omega
  have hlt : dataStartPos p f < bl.headD f.size := by
    cases hblc : bl with
    | nil => exact hds_lt_size
    | cons y t =>
      obtain ⟨k, hk⟩ : ∃ k, fileCountOf p f - 1 = k + 1 := by
        rcases hfck : fileCountOf p f - 1 with - | k
        · rw [hbl, hfck] at hblc
          cases hblc
        · exact ⟨k, rfl⟩
      rw [hbl, hk] at hblc
      rw [boundLoop] at hblc
      by_cases ht0 : startLineIdxOf p f + 1 * rowsPerChunkOf p f < f.breaks.length
      · rw [if_pos ht0] at hblc
        have hy : y = f.breaks.getD
            (startLineIdxOf p f + 1 * rowsPerChunkOf p f) 0 + 1 :=
          (List.cons.injEq _ _ _ _ ▸ hblc).1.symm
        have hq : rowsPerChunkOf p f ≠ 0 := by
          unfold rowsPerChunkOf
          exact ceilDiv_ne_zero hdl (by omega)
        have ht1 : 1 ≤ startLineIdxOf p f + 1 * rowsPerChunkOf p f := by omega
        have ht2 : startLineIdxOf p f + 1 * rowsPerChunkOf p f < f.nBreaks := by
          have := f.length_breaks
          omega
        have := hds_le _ ht1 ht2
        simp only [List.headD_cons]
        omega
      · rw [if_neg ht0] at hblc
        have hy : y = f.size := (List.cons.injEq _ _ _ _ ▸ hblc).1.symm
        simp only [List.headD_cons]
        omega
  obtain ⟨k, hk⟩ : ∃ k, fileCountOf p f = k + 1 := ⟨fileCountOf p f - 1, by omega⟩
  unfold spawnedChunks
  rw [hk]
  simp only [spawnLoop]
  rw [if_neg (by omega : ¬ (boundariesOf p f).length ≤ 1)]
  rw [if_pos (by omega : 1 < (boundariesOf p f).length)]
  have hsub : (1 : Nat) - 1 = 0 := rfl
  rw [hsub, hget0, hget1, if_neg (by omega : ¬ bl.headD f.size ≤ dataStartPos p f)]
  exact List.cons_ne_nil _ _

theorem drainGo_error_of_mem :
    ∀ (msgs : List (Nat × Except String Unit)) (c : Nat),
      (∃ m ∈ msgs, ∃ e, m.2 = .error e) →
      ∃ e2, (drainGo msgs c).1 = .error e2 := by
  intro msgs
  induction msgs with
  | nil =>
    intro c h
    obtain ⟨m, hm, -⟩ := h
    cases hm
  | cons m rest ih =>
    intro c h
    obtain ⟨fi, r⟩ := m
    cases r with
    | error e => exact ⟨_, rfl⟩
    | ok u =>
      obtain ⟨m', hm', e', he'⟩ := h
      rcases List.mem_cons.mp hm' with hh | hh
      · subst hh
        cases he'
      · obtain ⟨e2, he2⟩ := ih (c + 1) ⟨m', hh, e', he'⟩
        simp only [drainGo]
        exact ⟨e2, he2⟩

/-! ## Helper lemmas: parallel run shapes -/

/-- A worker whose chunk decodes cleanly reports success. -/
theorem workerRun_ok (p : Params) (f : CsvFile) (hbad : f.badLine = none)
    (hd : Rec) (fc q dl fi st en : Nat) :
    (workerRun p f true hd fc q dl fi st en).1 = .ok () := by
  unfold workerRun
  rw [if_neg (by simp)]
  rw [if_neg (by unfold badInSlice; rw [hbad]; simp)]

/-- Evaluation of the parallel splitter once its validations pass and the
header row is readable. -/
theorem par_eval (p : Params) (env : Env)
    (hA : env.inputExists = true)
    (hB : ¬(env.outputDirExists = false ∧ env.outputDirCreatable = false))
    (hC : p.rows_per_file ≠ 0) (hD : env.file.size ≠ 0)
    (hE : dataLinesOf p env.file ≠ 0) (hbad : env.file.badLine = none) :
    split_csv_multithread p env =
      ((drainJoin ((spawnedChunks p env.file).map fun c =>
          (c.1, (workerRun p env.file env.outputDirWritable
            (expectedHeader p env.file) (fileCountOf p env.file)
            (rowsPerChunkOf p env.file) (dataLinesOf p env.file)
            c.1 c.2.1 c.2.2).1))).1,
        (spawnedChunks p env.file).filterMap fun c =>
          (workerRun p env.file env.outputDirWritable
            (expectedHeader p env.file) (fileCountOf p env.file)
            (rowsPerChunkOf p env.file) (dataLinesOf p env.file)
            c.1 c.2.1 c.2.2).2) := by
  simp only [split_csv_multithread]
  rw [if_neg (by simp [hA]), if_neg hB, if_neg hC, if_neg hD, if_neg hE,
    readHeadersPar_ok p env.file hbad]
  simp only [List.map_map, List.filterMap_map]
  rfl

/-- With an unwritable output directory the parallel splitter fails (every
worker's shard-file creation fails) and creates no shard. -/
theorem par_unwritable (p : Params) (env : Env) (hwf : env.file.wf)
    (hbad : env.file.badLine = none) (hA : env.inputExists = true)
    (hB : ¬(env.outputDirExists = false ∧ env.outputDirCreatable = false))
    (hC : p.rows_per_file ≠ 0) (hD : env.file.size ≠ 0)
    (hE : dataLinesOf p env.file ≠ 0) (hw : env.outputDirWritable = false) :
    (∃ e, (split_csv_multithread p env).1 = .error e) ∧
      (split_csv_multithread p env).2 = [] := by
  have heval := par_eval p env hA hB hC hD hE hbad
  obtain ⟨c0, cs, hcc⟩ :=
    List.exists_cons_of_ne_nil (spawnedChunks_ne_nil p env.file hwf hD hE)
  constructor
  · rw [heval]
    apply drainGo_error_of_mem
    refine ⟨(c0.1, (workerRun p env.file env.outputDirWritable
      (expectedHeader p env.file) (fileCountOf p env.file)
      (rowsPerChunkOf p env.file) (dataLinesOf p env.file)
      c0.1 c0.2.1 c0.2.2).1), ?_, ?_⟩
    · rw [List.mem_map]
      exact ⟨c0, by rw [hcc]; exact List.mem_cons_self _ _, rfl⟩
    · rw [hw, workerRun_unwritable]
      exact ⟨_, rfl⟩
  · rw [heval]
    rw [hw]
    exact List.filterMap_eq_nil_iff.mpr (fun c _ => by rw [workerRun_unwritable])

/-- If the parallel splitter returned `Ok`, every pre-spawn validation
passed. -/
theorem par_ok_validations (p : Params) (env : Env)
    (h : ∃ n, (split_csv_multithread p env).1 = .ok n) :
    env.inputExists = true ∧
      ¬(env.outputDirExists = false ∧ env.outputDirCreatable = false) ∧
      p.rows_per_file ≠ 0 ∧ env.file.size ≠ 0 ∧ dataLinesOf p env.file ≠ 0 := by
  obtain ⟨n, hn⟩ := h
  simp only [split_csv_multithread] at hn
  split_ifs at hn with hA hB hC hD hE
  split at hn
  · cases hn
  · refine ⟨?_, hB, hC, hD, hE⟩
    revert hA
    cases env.inputExists <;> simp

/-- A parallel run with readable bytes either created no shard file or
returned success. -/
theorem par_error_no_shards (p : Params) (env : Env)
    (hbad : env.file.badLine = none) :
    (split_csv_multithread p env).2 = [] ∨
      ∃ n, (split_csv_multithread p env).1 = .ok n := by
  simp only [split_csv_multithread]
  split_ifs
  · exact Or.inl rfl
  · exact Or.inl rfl
  · exact Or.inl rfl
  · exact Or.inl rfl
  · exact Or.inl rfl
  · split
    · exact Or.inl rfl
    · rename_i hd heq
      cases hw : env.outputDirWritable
      · left
        exact List.filterMap_eq_nil_iff.mpr (fun x hx => by
          rw [List.mem_map] at hx
          obtain ⟨c, -, rfl⟩ := hx
          rw [workerRun_unwritable])
      · right
        have hall : ∀ m ∈ (((spawnedChunks p env.file).map fun c =>
            (c.1, workerRun p env.file true hd (fileCountOf p env.file)
              (rowsPerChunkOf p env.file) (dataLinesOf p env.file)
              c.1 c.2.1 c.2.2)).map fun x => (x.1, x.2.1)),
            m.2 = Except.ok () := by
          intro m hm
          rw [List.mem_map] at hm
          obtain ⟨x, hx, rfl⟩ := hm
          rw [List.mem_map] at hx
          obtain ⟨c, -, rfl⟩ := hx
          exact workerRun_ok p env.file hbad hd _ _ _ _ _ _
        exact ⟨_, congrArg Prod.fst (drainGo_allOk _ 0 hall)⟩

theorem except_error_of_not_ok {x : Except String Nat}
    (h : ¬ ∃ n, x = .ok n) : ∃ e, x = .error e := by
  cases x with
  | ok n => exact absurd ⟨n, rfl⟩ h
  | error e => exact ⟨e, rfl⟩

/-- Any of the listed validation failures makes the sequential splitter
return an error before creating any shard file. -/
theorem seq_validation_fails (p : Params) (env : Env)
    (hbad : env.file.badLine = none)
    (hcond : env.inputExists = false ∨ env.inputExt ≠ "csv" ∨
      env.file.size = 0 ∨
      (env.outputDirExists = false ∧ env.outputDirCreatable = false) ∨
      env.outputDirWritable = false ∨ p.rows_per_file = 0 ∨
      dataRowCount p env.file = 0) :
    ∃ e, split_csv_internal p env = (.error e, []) := by
  have hss : seqStream p env.file = dataRecs p env.file := by
    unfold seqStream
    rw [hbad]
    rfl
  simp only [split_csv_internal]
  by_cases hA : env.inputExists = false
  · rw [if_pos hA]
    exact ⟨_, rfl⟩
  rw [if_neg hA]
  by_cases hB : env.inputExt ≠ "csv"
  · rw [if_pos hB]
    exact ⟨_, rfl⟩
  rw [if_neg hB]
  by_cases hC : env.file.size = 0
  · rw [if_pos hC]
    exact ⟨_, rfl⟩
  rw [if_neg hC]
  by_cases hD : env.outputDirExists = false ∧ env.outputDirCreatable = false
  · rw [if_pos hD]
    exact ⟨_, rfl⟩
  rw [if_neg hD]
  by_cases hE : env.outputDirWritable = false
  · rw [if_pos hE]
    exact ⟨_, rfl⟩
  rw [if_neg hE]
  by_cases hF : p.rows_per_file = 0
  · rw [if_pos hF]
    exact ⟨_, rfl⟩
  rw [if_neg hF]
  rw [if_neg (show ¬ env.file.badLine = some 0 by rw [hbad]; exact fun hq => by cases hq)]
  by_cases hH : p.has_header = false ∧ (env.file.recs.headD []).length = 0
  · rw [if_pos hH]
    exact ⟨_, rfl⟩
  rw [if_neg hH]
  by_cases hI : (seqStream p env.file).length = 0
  · rw [if_pos hI]
    exact ⟨_, rfl⟩
  exfalso
  rcases hcond with h | h | h | h | h | h | h
  · exact hA h
  · exact hB h
  · exact hC h
  · exact hD h
  · exact hE h
  · exact hF h
  · exact hI (by rw [hss]; exact h)

theorem headD_take {α : Type} (l : List α) (d : α) {b : Nat} (hb : 1 ≤ b) :
    (l.take b).headD d = l.headD d := by
  cases l with
  | nil => simp
  | cons x xs =>
    obtain ⟨b', rfl⟩ : ∃ b', b = b' + 1 := ⟨b - 1, by omega⟩
    rfl

/-! ## The claims -/

/-- C1: "For every valid request (existing non-empty .csv input, writable
output directory, rows_per_file > 0, at least one data row), the split
operation returns file_count equal to ceil(data_row_count / rows_per_file),
for both the Sequential and the Parallel strategy."  The code violates this
for the Parallel strategy: on the valid request below (three one-byte data
rows, newline-terminated, `rows_per_file = 2`) the parallel splitter returns
`file_count = 1` although `ceil(3/2) = 2` — the very value it computes
internally as `file_count` (lib.rs:445) — while the sequential splitter does
return 2.  The boundary walk lands one line too far
(`line_breaks[target_line] + 1`, lib.rs:493-495), so the first chunk covers
all three rows (only two of which are written) and the second chunk is empty
and skipped (lib.rs:525-526). -/
theorem c1_parallel_returns_fewer_files :
    ValidReq pTwo envABC ∧
    (split_csv_multithread pTwo envABC).1 = .ok 1 ∧
    ceilDiv (dataRowCount pTwo envABC.file) pTwo.rows_per_file = 2 ∧
    (split_csv_internal pTwo envABC).1 = .ok 2 :=
  ⟨by decide, rfl, rfl, rfl⟩

/-- C2: "concatenating the data rows of all produced shards in shard-index
order yields exactly the source's data rows in their original order;
moreover the Sequential and Parallel strategies produce observably identical
shard contents on identical input."  The code violates this: on six
newline-terminated rows with `rows_per_file = 3` the parallel shards hold
`a,b,c` and `e,f` — row `d` falls inside chunk 1's byte range but beyond its
`target_rows` cap, so no worker ever writes it — while the sequential shards
hold `a,b,c` and `d,e,f`. -/
theorem c2_parallel_drops_row :
    ValidReq pThree envSix ∧
    ((split_csv_multithread pThree envSix).2.map (List.drop 1)).flatten =
      [["a"], ["b"], ["c"], ["e"], ["f"]] ∧
    dataRecs pThree envSix.file = [["a"], ["b"], ["c"], ["d"], ["e"], ["f"]] ∧
    ((split_csv_internal pThree envSix).2.map (List.drop 1)).flatten =
      [["a"], ["b"], ["c"], ["d"], ["e"], ["f"]] :=
  ⟨by decide, rfl, rfl, rfl⟩

/-- C3 counterexample: "exactly one shard holds exactly
data_row_count - rows_per_file * (file_count - 1) data rows" is false even
for the Sequential strategy: with 8 data rows and `rows_per_file = 4` the
remainder value is 4 and BOTH shards hold exactly 4 rows. -/
theorem c3_counterexample :
    ValidReq pFour envEight ∧
    (split_csv_internal pFour envEight).1 =
      .ok (ceilDiv (dataRowCount pFour envEight.file) pFour.rows_per_file) ∧
    ((split_csv_internal pFour envEight).2.filter
        (fun s => (s.drop 1).length =
          dataRowCount pFour envEight.file -
            pFour.rows_per_file *
              (ceilDiv (dataRowCount pFour envEight.file)
                pFour.rows_per_file - 1))).length = 2 :=
  ⟨by decide, rfl, rfl⟩

/-- C3 amended: for every valid request, under the Sequential strategy every
produced shard holds at most `rows_per_file` data rows, and the final shard
holds exactly `data_row_count - rows_per_file * (file_count - 1)` data rows
(this shard is unique with that count only when `rows_per_file` does not
divide `data_row_count`; the Parallel strategy does not satisfy the
remainder property at all). -/
theorem c3_amended (p : Params) (env : Env) (h : ValidReq p env) :
    (∀ s ∈ (split_csv_internal p env).2,
      (s.drop 1).length ≤ p.rows_per_file) ∧
    (∃ s, (split_csv_internal p env).2.getLast? = some s ∧
      (s.drop 1).length =
        dataRowCount p env.file -
          p.rows_per_file * ((split_csv_internal p env).2.length - 1)) := by
  have hrun := seq_run_valid p env h
  obtain ⟨-, -, -, -, h5, -, -, -, hn⟩ := h
  constructor
  · rw [hrun]
    intro s hs
    rw [List.mem_map] at hs
    obtain ⟨c, hc, rfl⟩ := hs
    have hdrop : (expectedHeader p env.file :: c).drop 1 = c := rfl
    rw [hdrop]
    exact length_le_of_mem_chunksOf h5 _ c hc
  · rw [hrun]
    have hne : dataRecs p env.file ≠ [] := fun hq => hn (by
      unfold dataRowCount
      rw [hq]
      rfl)
    obtain ⟨c, hc1, hc2⟩ := getLast?_chunksOf h5 (dataRecs p env.file) hne
    refine ⟨expectedHeader p env.file :: c, ?_, ?_⟩
    · rw [List.getLast?_map, hc1]
      rfl
    · have hdrop : (expectedHeader p env.file :: c).drop 1 = c := rfl
      rw [hdrop, List.length_map]
      exact hc2

/-- C3 amended, witnessed at a concrete valid request (three data rows,
`rows_per_file = 2`). -/
theorem c3_amended_witness :
    (∀ s ∈ (split_csv_internal pTwo envABC).2,
      (s.drop 1).length ≤ pTwo.rows_per_file) ∧
    (∃ s, (split_csv_internal pTwo envABC).2.getLast? = some s ∧
      (s.drop 1).length =
        dataRowCount pTwo envABC.file -
          pTwo.rows_per_file * ((split_csv_internal pTwo envABC).2.length - 1)) :=
  c3_amended pTwo envABC (by decide)

/-- C4: for every valid request and both strategies, every produced shard's
first row equals the source header row when `has_header` is true, and the
synthesized names `column_1 .. column_k` (with `k` the first record's field
count) when it is false. -/
theorem c4_shards_start_with_header (p : Params) (env : Env)
    (h : ValidReq p env) :
    (∀ s ∈ (split_csv_internal p env).2,
      s.head? = some (expectedHeader p env.file)) ∧
    (∀ s ∈ (split_csv_multithread p env).2,
      s.head? = some (expectedHeader p env.file)) := by
  constructor
  · rw [seq_run_valid p env h]
    intro s hs
    rw [List.mem_map] at hs
    obtain ⟨c, -, rfl⟩ := hs
    rfl
  · intro s hs
    obtain ⟨hd, hhd, hh⟩ := par_shards_from_workers p env s hs
    have hok := readHeadersPar_ok p env.file h.2.2.2.2.2.2.1
    rw [hok] at hhd
    cases hhd
    exact hh

/-- C4, witnessed at a concrete valid request. -/
theorem c4_witness :
    (∀ s ∈ (split_csv_internal pThree envSix).2,
      s.head? = some (expectedHeader pThree envSix.file)) ∧
    (∀ s ∈ (split_csv_multithread pThree envSix).2,
      s.head? = some (expectedHeader pThree envSix.file)) :=
  c4_shards_start_with_header pThree envSix (by decide)

/-- C5 counterexample: for a request whose input file does not exist, the
`split_csv` command does NOT return a `SplitResult` — the `std::fs::metadata`
failure is propagated with `return Err(..)` (lib.rs:37), an error past the
boundary. -/
theorem c5_counterexample :
    envMissing.inputExists = false ∧
    split_csv pTwo envMissing = .error "无法获取文件信息" :=
  ⟨rfl, rfl⟩

/-- C5 amended: for every request whose input metadata is readable (the file
exists), `split_csv` returns a `SplitResult`: success with no error message,
or `success = false` with the failure captured in the `error` field.  Only
the input-stat failure escapes as a command-level error. -/
theorem c5_amended (p : Params) (env : Env) (h : env.inputExists = true) :
    ∃ res : SplitResult, split_csv p env = .ok res ∧
      (res.success = true ∧ res.error = none ∨
        res.success = false ∧ res.error.isSome = true) := by
  have hgen : ∀ x : Except String Nat,
      ∃ res : SplitResult,
        (match x with
          | Except.ok c => (Except.ok ⟨true, c, none⟩ : Except String SplitResult)
          | Except.error e => Except.ok ⟨false, 0, some e⟩) = Except.ok res ∧
        (res.success = true ∧ res.error = none ∨
          res.success = false ∧ res.error.isSome = true) := by
    intro x
    cases x with
    | ok c => exact ⟨⟨true, c, none⟩, rfl, Or.inl ⟨rfl, rfl⟩⟩
    | error e => exact ⟨⟨false, 0, some e⟩, rfl, Or.inr ⟨rfl, rfl⟩⟩
  simp only [split_csv]
  rw [if_neg (by simp [h])]
  exact hgen _

/-- C5 amended, witnessed at a concrete request with an existing input. -/
theorem c5_amended_witness :
    ∃ res : SplitResult, split_csv pTwo envABC = .ok res ∧
      (res.success = true ∧ res.error = none ∨
        res.success = false ∧ res.error.isSome = true) :=
  c5_amended pTwo envABC rfl

/-- C6 counterexample: a request whose input has extension `txt` succeeds
under the Parallel strategy — `split_csv_multithread` never checks the
extension (there is no counterpart of lib.rs:100 in lib.rs:375-441). -/
theorem c6_counterexample :
    envTxt.inputExt ≠ "csv" ∧
    (split_csv_multithread pOne envTxt).1 = .ok 1 :=
  ⟨by decide, rfl⟩

/-- C6 amended: a missing input, a wrong extension, an empty file, an
uncreatable or unwritable output directory, a zero `rows_per_file`, or zero
data rows each make the Sequential strategy fail with an error before any
shard file is created; the Parallel strategy likewise fails with no shard
created on all of these conditions EXCEPT a wrong extension, which it does
not check (its writability failure surfaces from the workers' shard-file
creation itself rather than from an up-front probe). -/
theorem c6_amended (p : Params) (env : Env) (hwf : env.file.wf)
    (hbad : env.file.badLine = none) :
    ((env.inputExists = false ∨ env.inputExt ≠ "csv" ∨ env.file.size = 0 ∨
        (env.outputDirExists = false ∧ env.outputDirCreatable = false) ∨
        env.outputDirWritable = false ∨ p.rows_per_file = 0 ∨
        dataRowCount p env.file = 0) →
      ∃ e, split_csv_internal p env = (.error e, [])) ∧
    ((env.inputExists = false ∨ env.file.size = 0 ∨
        (env.outputDirExists = false ∧ env.outputDirCreatable = false) ∨
        env.outputDirWritable = false ∨ p.rows_per_file = 0 ∨
        dataRowCount p env.file = 0) →
      ∃ e, (split_csv_multithread p env).1 = .error e ∧
        (split_csv_multithread p env).2 = []) := by
  constructor
  · exact seq_validation_fails p env hbad
  · intro hcond
    by_cases hok : ∃ n, (split_csv_multithread p env).1 = .ok n
    · exfalso
      obtain ⟨g1, g2, g3, g4, g5⟩ := par_ok_validations p env hok
      rcases hcond with h | h | h | h | h | h
      · rw [g1] at h
        cases h
      · exact g4 h
      · exact g2 h
      · obtain ⟨⟨e, he⟩, -⟩ := par_unwritable p env hwf hbad g1 g2 g3 g4 g5 h
        obtain ⟨n, hn⟩ := hok
        rw [hn] at he
        cases he
      · exact g3 h
      · rcases dataRow_zero_cases p env.file hwf h with h2 | h2
        · exact g4 h2
        · exact g5 h2
    · obtain ⟨e, he⟩ := except_error_of_not_ok hok
      rcases par_error_no_shards p env hbad with h2 | h2
      · exact ⟨e, he, h2⟩
      · exact absurd h2 hok

/-- C6 amended, witnessed at a concrete request with `rows_per_file = 0`. -/
theorem c6_amended_witness :
    (∃ e, split_csv_internal pZero envABC = (.error e, [])) ∧
    (∃ e, (split_csv_multithread pZero envABC).1 = .error e ∧
      (split_csv_multithread pZero envABC).2 = []) :=
  ⟨(c6_amended pZero envABC (by decide) (by decide)).1 (by decide),
    (c6_amended pZero envABC (by decide) (by decide)).2 (by decide)⟩

/-- C7 counterexample: when the first message the coordinator receives is a
failure, it returns after consuming only 1 of the 2 messages and never
reaches the join loop (`return Err(..)` inside the drain loop,
lib.rs:605) — refuting "still drains the completion channel … and joins
every worker handle before returning the failing worker's error". -/
theorem c7_counterexample :
    drainJoin [(1, .error "boom"), (2, .ok ())] =
      (.error ("处理文件 " ++ toString (1 : Nat) ++ " 失败: " ++ "boom"),
        1, false) ∧
    [((1 : Nat), (.error "boom" : Except String Unit)), (2, .ok ())].length = 2 :=
  ⟨rfl, rfl⟩

/-- C7 amended: when every worker succeeds the coordinator drains every
result and reaches the join pass; but on the first failure message it
returns that worker's error immediately, having consumed only the messages
up to and including the failure, without joining the worker handles. -/
theorem c7_amended :
    (∀ msgs : List (Nat × Except String Unit),
      (∀ m ∈ msgs, m.2 = .ok ()) →
      drainJoin msgs = (.ok msgs.length, msgs.length, true)) ∧
    (∀ (pre : List (Nat × Except String Unit)) (i : Nat) (e : String)
        (rest : List (Nat × Except String Unit)),
      (∀ m ∈ pre, m.2 = .ok ()) →
      drainJoin (pre ++ (i, .error e) :: rest) =
        (.error ("处理文件 " ++ toString i ++ " 失败: " ++ e),
          pre.length + 1, false)) := by
  constructor
  · intro msgs hall
    unfold drainJoin
    rw [drainGo_allOk msgs 0 hall, Nat.zero_add]
  · intro pre i e rest hpre
    exact drainGo_firstError pre i e rest 0 hpre

/-- C7 amended, witnessed on a concrete message sequence. -/
theorem c7_amended_witness :
    drainJoin [(3, .ok ()), (1, .error "x"), (2, .ok ())] =
      (.error ("处理文件 " ++ toString (1 : Nat) ++ " 失败: " ++ "x"),
        2, false) := by
  have h := c7_amended.2 [(3, .ok ())] 1 "x" [(2, .ok ())] (by simp)
  simpa using h

/-- C8: "the Sequential splitter's read loop does not terminate successfully
on a record read error" is violated: the loop is
`while let Ok(has_record) = reader.read_record(..)` (lib.rs:172), so a read
failure silently ends the loop.  On a header, one readable data row and then
an unreadable record, the run returns success with `file_count = 1` and a
single truncated shard instead of reporting a ParseError. -/
theorem c8_sequential_swallows_read_error :
    envBadTail.file.badLine = some 2 ∧
    split_csv_internal pTenH envBadTail = (.ok 1, [[["h1"], ["a"]]]) :=
  ⟨rfl, rfl⟩

set_option maxRecDepth 4096 in
/-- C9: "a cell whose text exceeds the 500-character cap is written as a
deterministically truncated text value … never causing an unhandled fault —
including cells whose 500th byte falls inside a multi-byte UTF-8 character"
is violated: `&field[..500]` (lib.rs:298) panics when byte 500 is not a
character boundary.  A cell of 499 ASCII characters followed by `é`
(a two-byte character occupying bytes 499-500) has byte length 501, and the
byte slice at 500 falls inside `é`: the truncation is not total. -/
theorem c9_truncation_not_total :
    utf8Len (List.replicate 499 'a' ++ ['é']) = 501 ∧
    truncateField (List.replicate 499 'a' ++ ['é']) = none :=
  ⟨by decide, by decide⟩

/-- C10: an input whose bytes in a dispatched chunk's range are not valid
UTF-8 makes the Parallel strategy fail (its workers decode the chunk with
`str::from_utf8`, lib.rs:567), while the Sequential strategy imposes no
UTF-8 requirement of its own on the same bytes: its result is exactly the
result on the input truncated right before the invalid line — the invalid
bytes merely end its read stream. -/
theorem c10_utf8_restriction_parallel_only (p : Params) (env : Env) (b : Nat)
    (h1 : env.inputExists = true) (h2 : env.inputExt = "csv")
    (h3 : env.outputDirExists = true) (h4 : env.outputDirWritable = true)
    (h5 : p.rows_per_file ≠ 0) (hwf : env.file.wf)
    (hbad : env.file.badLine = some b) (hlo : dataStartIdx p < b)
    (hk : (env.file.recs.headD []).length ≠ 0)
    (hchunk : ∃ c ∈ spawnedChunks p env.file,
      badInSlice env.file c.2.1 (min c.2.2 env.file.size) = true) :
    (∃ e, (split_csv_multithread p env).1 = .error e) ∧
    split_csv_internal p env = split_csv_internal p (truncEnv env b) := by
  have hblt : b < env.file.recs.length := hwf.2.2 b hbad
  constructor
  · simp only [split_csv_multithread]
    by_cases hA : env.inputExists = false
    · rw [if_pos hA]
      exact ⟨_, rfl⟩
    rw [if_neg hA]
    by_cases hB : env.outputDirExists = false ∧ env.outputDirCreatable = false
    · rw [if_pos hB]
      exact ⟨_, rfl⟩
    rw [if_neg hB]
    by_cases hC : p.rows_per_file = 0
    · rw [if_pos hC]
      exact ⟨_, rfl⟩
    rw [if_neg hC]
    by_cases hD : env.file.size = 0
    · rw [if_pos hD]
      exact ⟨_, rfl⟩
    rw [if_neg hD]
    by_cases hE : dataLinesOf p env.file = 0
    · rw [if_pos hE]
      exact ⟨_, rfl⟩
    rw [if_neg hE]
    cases hres : readHeadersPar p env.file with
    | error e => exact ⟨e, rfl⟩
    | ok hd =>
      apply drainGo_error_of_mem
      obtain ⟨c, hc, hbadc⟩ := hchunk
      refine ⟨(c.1, (workerRun p env.file env.outputDirWritable hd
        (fileCountOf p env.file) (rowsPerChunkOf p env.file)
        (dataLinesOf p env.file) c.1 c.2.1 c.2.2).1), ?_, ?_⟩
      · rw [List.mem_map]
        refine ⟨(c.1, workerRun p env.file env.outputDirWritable hd
          (fileCountOf p env.file) (rowsPerChunkOf p env.file)
          (dataLinesOf p env.file) c.1 c.2.1 c.2.2), ?_, rfl⟩
        rw [List.mem_map]
        exact ⟨c, hc, rfl⟩
      · simp only [workerRun]
        rw [if_neg (by simp [h4])]
        rw [if_pos hbadc]
        exact ⟨_, rfl⟩
  · have hne : env.file.recs ≠ [] := by
      intro hq
      rw [hq] at hblt
      cases hblt
    have hsz : env.file.size ≠ 0 :=
      Nat.pos_iff_ne_zero.mp (CsvFile.size_pos _ hwf hne)
    have hss1 : seqStream p env.file =
        (dataRecs p env.file).take (b - dataStartIdx p) := by
      unfold seqStream
      rw [hbad]
      rfl
    have hwfT : (truncEnv env b).file.wf := by
      refine ⟨?_, ?_, ?_⟩
      · simp only [truncEnv, List.length_take, hwf.1]
      · intro l hl
        exact hwf.2.1 l (List.mem_of_mem_take hl)
      · intro b' hb'
        cases hb'
    have hneT : (truncEnv env b).file.recs ≠ [] := by
      intro hq
      rcases List.take_eq_nil_iff.mp hq with hq2 | hq2
      · omega
      · exact hne hq2
    have hszT : (truncEnv env b).file.size ≠ 0 :=
      Nat.pos_iff_ne_zero.mp (CsvFile.size_pos _ hwfT hneT)
    have hss2 : seqStream p (truncEnv env b).file =
        (dataRecs p env.file).take (b - dataStartIdx p) := by
      unfold seqStream truncEnv dataRecs
      rw [List.drop_take]
    have hhdT : expectedHeader p (truncEnv env b).file =
        expectedHeader p env.file := by
      unfold expectedHeader truncEnv
      rw [headD_take env.file.recs [] (by omega : 1 ≤ b)]
    have hlen : ((dataRecs p env.file).take (b - dataStartIdx p)).length =
        b - dataStartIdx p := by
      rw [List.length_take]
      unfold dataRecs
      rw [List.length_drop]
      omega
    have hb0 : env.file.badLine ≠ some 0 := by
      rw [hbad]
      intro hq
      injection hq with hq2
      omega
    have hkT : ((truncEnv env b).file.recs.headD []).length ≠ 0 := by
      show ((env.file.recs.take b).headD []).length ≠ 0
      rw [headD_take env.file.recs [] (by omega : 1 ≤ b)]
      exact hk
    rw [seq_run_eval p env h1 h2 h3 h4 h5 hb0 hk hsz
        (by rw [hss1, hlen]; omega),
      seq_run_eval p (truncEnv env b) h1 h2 h3 h4 h5
        (by intro hq; cases hq) hkT hszT
        (by rw [hss2, hlen]; omega)]
    rw [hss1, hss2, hhdT]

/-- C10, witnessed on a concrete input whose third line is invalid while the
first two rows are readable. -/
theorem c10_witness :
    (∃ e, (split_csv_multithread pTwo envBadThird).1 = .error e) ∧
    split_csv_internal pTwo envBadThird =
      split_csv_internal pTwo (truncEnv envBadThird 2) :=
  c10_utf8_restriction_parallel_only pTwo envBadThird 2 rfl rfl rfl rfl
    (by decide) (by decide) rfl (by decide) (by decide) (by decide)

end CsvSplit
